import Mathlib

/-!
# Flashback replay engine — verified shallow embedding

A shallow embedding, in Lean 4, of the core of the flashback replay
engine (`op.go`, `ops_executor.go` and the replay `main` file), together
with proofs of the behavioural properties stated in its specification.

Modelling conventions:
* Go `interface{}` values carried inside op content documents become the
  inductive `GoVal`; Go maps `map[string]interface{}` become association
  lists (`Document`), with `docGet` as map lookup (absent key = Go `nil`).
* Go float32/float64 values are modelled by the rational number they
  denote exactly; Go's `int(f)` conversion is truncation toward zero.
* A Go panic (failed type assertion, call of a nil function value) is
  modelled by `Option.none` in the result of the embedded function.
* Wall-clock time is an abstract natural-number clock; the duration of
  each database attempt is supplied by an environment.
* All strings are treated as sequences of `Char`; the program only ever
  scans ASCII text, where Go's byte indexing and rune iteration agree.
-/

namespace Flashback

/-- `OpType` is the name of a mongo op type (a Go string type). -/
abbrev OpType := String

def Insert : OpType := "insert"
def Update : OpType := "update"
def Remove : OpType := "remove"
def Query : OpType := "query"
def Command : OpType := "command"
def Count : OpType := "command.count"
def FindAndModify : OpType := "command.findandmodify"

/-- `AllOpTypes` specifies all supported op types, in source order. -/
def AllOpTypes : List OpType :=
  [Insert, Update, Remove, Query, Count, FindAndModify]

/-- The dynamic (`interface{}`) values stored in an op's content.
`goFloat32`/`goFloat64` carry the exact rational value the float
denotes; `goDoc` is a nested `map[string]interface{}`. -/
inductive GoVal where
  | goInt (n : Int)
  | goInt32 (n : Int)
  | goInt64 (n : Int)
  | goFloat32 (q : Rat)
  | goFloat64 (q : Rat)
  | goString (s : String)
  | goBool (b : Bool)
  | goDoc (fields : List (String × GoVal))
  deriving Repr

/-- `Document` represents the json-like information of an op. -/
abbrev Document := List (String × GoVal)

/-- Go map lookup `d[k]`: `none` models both an absent key and a `nil`
value (the two are indistinguishable to the `!= nil` tests the code
performs). -/
def docGet (d : Document) (k : String) : Option GoVal :=
  match d with
  | [] => none
  | (k', v) :: rest => if k' = k then some v else docGet rest k

/-- An op record, as decoded from the trace.  The recorded timestamp is
an abstract instant; it plays no role in the executor. -/
structure Op where
  database : String
  collection : String
  type : OpType
  timestamp : Int
  content : Document
  textContent : String
  deriving Repr

/-- A latency sample `{type, latency, is_error}` sent to a node's
statistics channel. -/
structure OpStat where
  opType : OpType
  latency : Nat
  isError : Bool
  deriving Repr, DecidableEq

/-! ## `getArgs` — ordered `$hint`/`$orderby` extraction

`getArgs` scans the raw textual content for the quoted key and then
runs a three-state machine over the following characters, collecting
index keys and applying a `-` prefix for negative directions. -/

/-- Prefix the last collected argument with `-`
(Go: `args[len(args)-1] = "-" + args[len(args)-1]`). -/
def negateLast : List String → List String
  | [] => []
  | [a] => ["-" ++ a]
  | a :: rest => a :: negateLast rest

/-- One pass of the `getArgs` state machine over the remaining
characters.  States: 0 = looking for a key, 1 = inside a key,
2 = looking for the direction of the index. -/
def getArgsLoop : List Char → Nat → String → List String → List String
  | [], _, _, args => args
  | c :: rest, state, buffer, args =>
    if state = 0 ∧ c = '}' then args
    else if state = 0 ∧ c = '"' then getArgsLoop rest 1 buffer args
    else if state = 1 then
      if c = '"' then getArgsLoop rest 2 "" (args ++ [buffer])
      else getArgsLoop rest 1 (buffer.push c) args
    else if state = 2 ∧ c = '-' then getArgsLoop rest state buffer (negateLast args)
    else if state = 2 ∧ c = '1' then getArgsLoop rest 0 buffer args
    else getArgsLoop rest state buffer args

/-- Index of the first occurrence of `pat` in `s`
(`strings.Index`), as an `Option` (`none` for Go's `-1`). -/
def strIndex (s pat : List Char) : Option Nat :=
  if pat.isPrefixOf s then some 0
  else
    match s with
    | [] => none
    | _ :: t => (strIndex t pat).map (· + 1)

/-- Given the op's raw JSON text and a key (e.g. `$hint` or
`$orderby`), extract the ordered argument list: `{ a: 1, b: -1 }`
becomes `["a", "-b"]`.  The slice `textContent[start+len(key)+2:]`
is `List.drop` on characters; when the key is absent Go's `-1` start
yields the drop count `len(key) + 1`, which we reproduce. -/
def getArgs (textContent : String) (key : String) : List String :=
  let pat := ("\"" ++ key ++ "\"").data
  let start : Int :=
    match strIndex textContent.data pat with
    | some n => (n : Int)
    | none => -1
  getArgsLoop (textContent.data.drop (start + key.length + 2).toNat) 0 "" []

/-! ## Errors and the driver interface

The mgo driver is abstracted: each sub-executor builds one database
call description (`DbCall`), and an environment supplies the outcome of
each attempt, the documents a find materializes, and the wall-clock
time each attempt consumes. -/

/-- The error kinds distinguished by the retry logic.  `queryError` and
`lastError` stand for the pointer types `*mgo.QueryError` and
`*mgo.LastError`; `errNotFound` is `mgo.ErrNotFound`; `notSupported`
is the package-level `NotSupported` sentinel; everything else is
`other` (treated as a transport/socket error). -/
inductive MgoError where
  | queryError (code : Int) (msg : String)
  | lastError (msg : String)
  | errNotFound
  | notSupported
  | other (msg : String)
  deriving Repr, DecidableEq

/-- The symbolic query built by `execQuery` out of `coll.Find` and the
`Hint`/`Sort`/`Limit`/`Skip` modifiers applied to it. -/
structure QueryPlan where
  selector : Option GoVal
  hint : Option (List String)
  sort : Option (List String)
  limit : Option Int
  skip : Option Int
  deriving Repr

/-- One database call issued by a sub-executor. -/
inductive DbCall where
  | insertDoc (database collection : String) (doc : Option GoVal)
  | updateDoc (database collection : String) (selector updateobj : Option GoVal)
  | removeDoc (database collection : String) (selector : Option GoVal)
  | countDocs (database collection : String)
  | queryAll (database collection : String) (plan : QueryPlan)
  | findAndModifyDoc (database collection : String)
      (selector : Option GoVal) (update : List (String × GoVal))
  deriving Repr

/-- Go's `int(x)` on a float value truncates toward zero; on the exact
rational the float denotes this is truncating division of numerator by
denominator. -/
def ratTrunc (q : Rat) : Int := q.num.tdiv q.den

/-- `safeGetInt`: convert a dynamic value to `int`, accepting exactly
the dynamic types `int32`, `int64`, `float32` and `float64`. -/
def safeGetInt : GoVal → Except String Int
  | .goInt32 n => .ok n
  | .goInt64 n => .ok n
  | .goFloat32 q => .ok (ratTrunc q)
  | .goFloat64 q => .ok (ratTrunc q)
  | _ => .error "unsupported type"

/-! ## The sub-executors -/

/-- The `coll.Find(...)` and envelope handling of `execQuery`: if
`content.query` is a mapping whose `$query` is non-nil, the inner
`$query` is the selector, and `$hint`/`$orderby` (when non-nil) are
applied through `getArgs` on the raw text; otherwise `content.query`
itself is the selector. -/
def execQueryBase (content : Document) (textContent : String) : QueryPlan :=
  match docGet content "query" with
  | some (GoVal.goDoc q) =>
    match docGet q "$query" with
    | some inner =>
      { selector := some inner
        hint := if (docGet q "$hint").isSome
                then some (getArgs textContent "$hint") else none
        sort := if (docGet q "$orderby").isSome
                then some (getArgs textContent "$orderby") else none
        limit := none
        skip := none }
    | none =>
      { selector := docGet content "query"
        hint := none, sort := none, limit := none, skip := none }
  | _ =>
    { selector := docGet content "query"
      hint := none, sort := none, limit := none, skip := none }

/-- `execQuery` up to the point of `query.All`: the built query plan
together with the error messages logged for unusable `ntoreturn` /
`ntoskip` values. -/
def execQuery (content : Document) (textContent : String) :
    QueryPlan × List String :=
  let base := execQueryBase content textContent
  let step1 :=
    match docGet content "ntoreturn" with
    | none => (base, [])
    | some v =>
      match safeGetInt v with
      | .error e => (base, ["could not set ntoreturn: " ++ e])
      | .ok ntoreturn => ({ base with limit := some ntoreturn }, [])
  match docGet content "ntoskip" with
  | none => step1
  | some v =>
    match safeGetInt v with
    | .error e => (step1.1, step1.2 ++ ["could not set ntoskip: " ++ e])
    | .ok ntoskip => ({ step1.1 with skip := some ntoskip }, step1.2)

def execInsert (content : Document) (database collection : String) : DbCall :=
  .insertDoc database collection (docGet content "o")

def execUpdate (content : Document) (database collection : String) : DbCall :=
  .updateDoc database collection (docGet content "query") (docGet content "updateobj")

def execRemove (content : Document) (database collection : String) : DbCall :=
  .removeDoc database collection (docGet content "query")

def execCount (database collection : String) : DbCall :=
  .countDocs database collection

/-- `execFindAndModify` asserts `content.update` to be a mapping
(`none` models the panic of a failed type assertion). -/
def execFindAndModify (content : Document) (database collection : String) :
    Option DbCall :=
  match docGet content "update" with
  | some (GoVal.goDoc u) =>
    some (.findAndModifyDoc database collection (docGet content "query") u)
  | _ => none

/-- A sub-executor: content, raw text, database and collection to the
database call it issues and the messages it logs, `none` for a panic. -/
abbrev ExecFn := Document → String → String → String → Option (DbCall × List String)

/-- The `subExecutes` dispatch map of `NewOpsExecutor`, keyed by op
type, in source order. -/
def subExecutes : List (OpType × ExecFn) :=
  [ (Query, fun content textContent database collection =>
      let (plan, logs) := execQuery content textContent
      some (DbCall.queryAll database collection plan, logs)),
    (Insert, fun content _ database collection =>
      some (execInsert content database collection, [])),
    (Update, fun content _ database collection =>
      some (execUpdate content database collection, [])),
    (Remove, fun content _ database collection =>
      some (execRemove content database collection, [])),
    (Count, fun _ _ database collection =>
      some (execCount database collection, [])),
    (FindAndModify, fun content _ database collection =>
      (execFindAndModify content database collection).map (·, [])) ]

/-- Go map indexing `e.subExecutes[op.Type]`: `none` models the nil
function value returned for a missing key. -/
def lookupExec (t : OpType) : Option ExecFn :=
  subExecutes.lookup t

/-! ## Retry policy -/

/-- The first `switch` of `retryOnSocketFailure`: is the error a
`*mgo.QueryError` or `*mgo.LastError`? -/
def isQueryLevelError : MgoError → Bool
  | .queryError _ _ => true
  | .lastError _ => true
  | _ => false

/-- `retryOnSocketFailure`: run `block` once; return immediately on
success, on a query-level error, on not-found or on the not-supported
sentinel; otherwise refresh the session and run `block` exactly once
more.  `block n` is the outcome of the `n`-th call (`none` = panic);
the result carries the final error, the number of calls made and the
number of session refreshes. -/
def retryOnSocketFailure (block : Nat → Option (Option MgoError)) :
    Option (Option MgoError × Nat × Nat) :=
  match block 0 with
  | none => none
  | some result =>
    match result with
    | none => some (none, 1, 0)
    | some err =>
      if isQueryLevelError err then some (some err, 1, 0)
      else if err = .errNotFound ∨ err = .notSupported then some (some err, 1, 0)
      else
        match block 1 with
        | none => none
        | some r2 => some (r2, 2, 1)

/-! ## `Execute` -/

/-- The abstract database and clock: the outcome of the `n`-th attempt
at a call, the documents the `n`-th attempt of a find materializes,
and the wall-clock duration of the `n`-th attempt (any refresh before
a retry is accounted to that retry's duration). -/
structure ExecEnv where
  outcome : Nat → DbCall → Option MgoError
  results : Nat → QueryPlan → List Document
  dur : Nat → Nat

/-- The mutable fields of an `OpsExecutor` relevant here, plus whether
a statistics channel is attached. -/
structure ExecutorState where
  statsAttached : Bool
  lastResult : Option (List Document)
  lastLatency : Nat

/-- The closure `block` of `Execute`, up to its database call: `none`
models the panic of indexing `subExecutes` at a missing type (a nil
function call) or of a failed type assertion inside a sub-executor. -/
def blockCall (op : Op) : Option (DbCall × List String) :=
  match lookupExec op.type with
  | none => none
  | some f => f op.content op.textContent op.database op.collection

/-- The `lastResult` field after the attempts: a find stores the
materialized document buffer (`query.All(&result)`), every other call
leaves the previous value. -/
def lastResultUpdate (env : ExecEnv) (call : DbCall) (attempts : Nat)
    (prev : Option (List Document)) : Option (List Document) :=
  match call with
  | .queryAll _ _ plan => some (env.results (attempts - 1) plan)
  | _ => prev

/-- Total wall-clock consumed by the first `attempts` attempts. -/
def elapsed (env : ExecEnv) (attempts : Nat) : Nat :=
  (List.range attempts).foldl (fun acc i => acc + env.dur i) 0

/-- `Execute`: wrap the op's sub-executor in `retryOnSocketFailure`,
measure the latency across all attempts, store it as `lastLatency`,
and emit exactly one `OpStat` when a statistics channel is attached.
Returns the final error, the new executor state, the new clock and the
stats emitted; `none` models a panic. -/
def Execute (env : ExecEnv) (s : ExecutorState) (op : Op) (now : Nat) :
    Option (Option MgoError × ExecutorState × Nat × List OpStat) :=
  let startOp := now
  match blockCall op with
  | none => none
  | some (call, _logs) =>
    match retryOnSocketFailure (fun n => some (env.outcome n call)) with
    | none => none
    | some (err, attempts, _refreshes) =>
      let now2 := now + elapsed env attempts
      let latencyOp := now2 - startOp
      let s2 : ExecutorState :=
        { s with
          lastLatency := latencyOp
          lastResult := lastResultUpdate env call attempts s.lastResult }
      let stats : List OpStat :=
        if s.statsAttached then [⟨op.type, latencyOp, err.isSome⟩] else []
      some (err, s2, now2, stats)

/-- `LastLatency` returns the stored `lastLatency`. -/
def LastLatency (s : ExecutorState) : Nat :=
  s.lastLatency

/-! ## `CanonicalizeOp`

`CanonicalizeOp` receives a pointer to the op record and may update
the record in place.  The model returns `some (ret, final)` where
`ret` is the returned pointer's value (`none` for Go `nil`, the drop
sentinel) and `final` is the state of the caller's record after the
call; a `none` result models the panic of a failed type assertion. -/
def CanonicalizeOp (op : Op) : Option (Option Op × Op) :=
  if op.type ≠ Command then some (some op, op)
  else
    match docGet op.content "command" with
    | some (GoVal.goDoc cmd) =>
      match docGet cmd "findandmodify" with
      | some (GoVal.goString collName) =>
        let op2 := { op with type := "command." ++ "findandmodify"
                             collection := collName, content := cmd }
        some (some op2, op2)
      | some _ => none
      | none =>
        match docGet cmd "count" with
        | some (GoVal.goString collName) =>
          let op2 := { op with type := "command." ++ "count"
                               collection := collName, content := cmd }
          some (some op2, op2)
        | some _ => none
        | none => some (none, op)
    | _ => none

/-! ## The worker loop and per-op fan-out

A worker pulls ops from the shared channel, canonicalizes each, and —
unless canonicalization drops it — spawns one goroutine per node and
waits on the `WaitGroup` before advancing.  The model is a small-step
relation: spawning makes every node pending for the current op; nodes
complete in an arbitrary order, each recording its own executor
outcome; the worker advances only once no node is pending.  -/

/-- The configuration a worker runs under: the sequence of ops the
channel delivers before closing, the number of configured nodes, and
the outcome of node `i`'s executor on op index `j` (abstracting the
per-node `Execute`, whose internals are modelled separately). -/
structure FanCfg where
  ops : List Op
  numNodes : Nat
  oracle : Nat → Nat → Option MgoError

/-- A worker's state: the index of the op being handled (or to be
received next), whether a fan-out is in flight, the nodes still
running the current op, and the completions recorded so far as
`(node, op index, outcome)` triples. -/
structure WorkerState where
  opIdx : Nat
  inFlight : Bool
  pending : List Nat
  executed : List (Nat × Nat × Option MgoError)

def initWorker : WorkerState :=
  { opIdx := 0, inFlight := false, pending := [], executed := [] }

/-- One step of the worker loop. -/
inductive WStep (cfg : FanCfg) : WorkerState → WorkerState → Prop where
  | dispatch (s : WorkerState) (op opC rec : Op)
      (hflight : s.inFlight = false)
      (hop : cfg.ops[s.opIdx]? = some op)
      (hcanon : CanonicalizeOp op = some (some opC, rec)) :
      WStep cfg s { s with inFlight := true, pending := List.range cfg.numNodes }
  | skip (s : WorkerState) (op rec : Op)
      (hflight : s.inFlight = false)
      (hop : cfg.ops[s.opIdx]? = some op)
      (hcanon : CanonicalizeOp op = some (none, rec)) :
      WStep cfg s { s with opIdx := s.opIdx + 1 }
  | complete (s : WorkerState) (i : Nat)
      (hflight : s.inFlight = true)
      (hi : i ∈ s.pending) :
      WStep cfg s { s with pending := s.pending.erase i,
                           executed := s.executed ++ [(i, s.opIdx, cfg.oracle i s.opIdx)] }
  | join (s : WorkerState)
      (hflight : s.inFlight = true)
      (hpending : s.pending = []) :
      WStep cfg s { s with inFlight := false, opIdx := s.opIdx + 1 }

/-- The states a worker can reach from its initial state. -/
def WReach (cfg : FanCfg) (s : WorkerState) : Prop :=
  Relation.ReflTransGen (WStep cfg) initWorker s

/-- Op index `j` is dispatched by the worker: the channel delivers an
op there and canonicalization does not drop it (nor panic). -/
def dispatchedOp (cfg : FanCfg) (j : Nat) : Prop :=
  ∃ op opC rec, cfg.ops[j]? = some op ∧ CanonicalizeOp op = some (some opC, rec)

/-- Node `i` is expected to have completed op `j` in state `s`:
either the worker has advanced past a dispatched op `j`, or `j` is the
op currently in flight and `i` is no longer pending. -/
def execExpected (cfg : FanCfg) (s : WorkerState) (i j : Nat) : Prop :=
  i < cfg.numNodes ∧
    ((j < s.opIdx ∧ dispatchedOp cfg j) ∨
     (s.inFlight = true ∧ j = s.opIdx ∧ i ∉ s.pending))

/-! ## The reporter

`printStatus` builds one CSV line per node per report tick by
successive `Sprintf("%s,%d,%.2f", ...)` steps — one for the totals,
then one per op type in `AllOpTypes` order — and appends it (plus a
newline) to the node's stats file when one is attached.  The `%.2f`
rendering of a float is abstracted as a parameter `fmtFloat`; `%d` on
an integer is decimal `toString`. -/

/-- The fields of an `ExecutionStatus` snapshot consumed by the CSV
line (the percentile and cumulative fields feed only the operator log,
which writes to the logger and never to the stats file). -/
structure ExecutionStatus where
  opsExecuted : Int
  intervalOpsExecuted : Int
  opsErrors : Int
  intervalOpsErrors : Int
  opsPerSec : Rat
  intervalOpsPerSec : Rat
  counts : OpType → Int
  intervalCounts : OpType → Int
  typeOpsSec : OpType → Rat
  intervalTypeOpsSec : OpType → Rat

/-- A broken-down wall-clock instant, with the zone offset in minutes,
as consumed by `time.Now().Format("2006-01-02 15:04:05 -0700")`. -/
structure GoTime where
  year : Nat
  month : Nat
  day : Nat
  hour : Nat
  minute : Nat
  second : Nat
  offMinutes : Int

/-- The two decimal digits of `%02d` (exact for `n < 100`). -/
def pad2 (n : Nat) : List Char :=
  [Nat.digitChar (n / 10), Nat.digitChar (n % 10)]

/-- The four decimal digits of `%04d` (exact for `n < 10000`). -/
def pad4 (n : Nat) : List Char :=
  [Nat.digitChar (n / 1000), Nat.digitChar (n / 100 % 10),
   Nat.digitChar (n / 10 % 10), Nat.digitChar (n % 10)]

/-- The characters of Go's layout `2006-01-02 15:04:05 -0700` applied
to an instant: date, time, then signed `hhmm` zone offset. -/
def timeFormatChars (t : GoTime) : List Char :=
  pad4 t.year ++ '-' :: pad2 t.month ++ '-' :: pad2 t.day ++
  ' ' :: pad2 t.hour ++ ':' :: pad2 t.minute ++ ':' :: pad2 t.second ++
  ' ' :: (if t.offMinutes < 0 then '-' else '+') ::
    (pad2 (t.offMinutes.natAbs / 60) ++ pad2 (t.offMinutes.natAbs % 60))

/-- `time.Now().Format("2006-01-02 15:04:05 -0700")`. -/
def timeFormat (t : GoTime) : String :=
  String.mk (timeFormatChars t)

/-- One `Sprintf("%s,%d,%.2f", pre, n, r)` step of the line builder. -/
def statFields (fmtFloat : Rat → String) (pre : String) (n : Int) (r : Rat) : String :=
  pre ++ "," ++ toString n ++ "," ++ fmtFloat r

/-- The CSV line `printStatus` builds for one snapshot: the timestamp,
interval ops and interval ops/sec, then a fold over `AllOpTypes`
appending each type's interval count and interval ops/sec. -/
def printStatusLine (fmtFloat : Rat → String) (ts : GoTime) (st : ExecutionStatus) : String :=
  AllOpTypes.foldl
    (fun acc t => statFields fmtFloat acc (st.intervalCounts t) (st.intervalTypeOpsSec t))
    (statFields fmtFloat (timeFormat ts) st.intervalOpsExecuted st.intervalOpsPerSec)

/-- The effect of one `printStatus` call on a node's stats file,
modelled as the list of strings written so far: when a file is
attached the line plus a newline is appended, otherwise nothing. -/
def printStatusWrite (fmtFloat : Rat → String) (ts : GoTime) (st : ExecutionStatus)
    (hasFile : Bool) (file : List String) : List String :=
  if hasFile then file ++ [printStatusLine fmtFloat ts st ++ "\n"] else file

/-- The stats file contents after a sequence of report ticks. -/
def reportTicksFile (fmtFloat : Rat → String) (hasFile : Bool)
    (ticks : List (GoTime × ExecutionStatus)) (file : List String) : List String :=
  ticks.foldl (fun f p => printStatusWrite fmtFloat p.1 p.2 hasFile f) file

/-- The timestamp shape `YYYY-MM-DD HH:MM:SS ±ZZZZ` stated by the
specification, as a decidable check on the formatted string. -/
def tsShape (s : String) : Bool :=
  match s.data with
  | [y1, y2, y3, y4, h1, m1, m2, h2, d1, d2, b1, hh1, hh2, c1, mi1, mi2, c2, s1, s2, b2, sg, z1, z2, z3, z4] =>
    y1.isDigit ∧ y2.isDigit ∧ y3.isDigit ∧ y4.isDigit ∧ h1 = '-' ∧
    m1.isDigit ∧ m2.isDigit ∧ h2 = '-' ∧ d1.isDigit ∧ d2.isDigit ∧
    b1 = ' ' ∧ hh1.isDigit ∧ hh2.isDigit ∧ c1 = ':' ∧ mi1.isDigit ∧ mi2.isDigit ∧
    c2 = ':' ∧ s1.isDigit ∧ s2.isDigit ∧ b2 = ' ' ∧ (sg = '+' ∨ sg = '-') ∧
    z1.isDigit ∧ z2.isDigit ∧ z3.isDigit ∧ z4.isDigit
  | _ => false

/-! ## Specification-side definitions

The definitions below come from the specification's words, not from
the source; the theorems compare the source-derived functions against
them. -/

/-- The specification's classification of a first-attempt result that
is returned immediately with no retry: success, a query error, a
last-error response, not-found, or the not-supported sentinel. -/
def immediateResult : Option MgoError → Bool
  | none => true
  | some e => isQueryLevelError e ∨ e = .errNotFound ∨ e = .notSupported

/-- The query plan as the specification describes it: the inner
`$query` of a mapping envelope (with `$hint`/`$orderby` extracted from
the raw text in order) or the plain `content.query`; `ntoreturn` /
`ntoskip` as limit and skip exactly when present and numeric. -/
def specQueryPlan (content : Document) (textContent : String) : QueryPlan :=
  let envelope : Option (List (String × GoVal)) :=
    match docGet content "query" with
    | some (GoVal.goDoc q) => if (docGet q "$query").isSome then some q else none
    | _ => none
  { selector :=
      match envelope with
      | some q => docGet q "$query"
      | none => docGet content "query"
    hint :=
      match envelope with
      | some q => if (docGet q "$hint").isSome
                  then some (getArgs textContent "$hint") else none
      | none => none
    sort :=
      match envelope with
      | some q => if (docGet q "$orderby").isSome
                  then some (getArgs textContent "$orderby") else none
      | none => none
    limit :=
      match docGet content "ntoreturn" with
      | some v => (safeGetInt v).toOption
      | none => none
    skip :=
      match docGet content "ntoskip" with
      | some v => (safeGetInt v).toOption
      | none => none }

/-- The characters of one `"key": direction` entry of a rendered
brace-enclosed mapping (a leading space, the quoted key, a colon and
space, then `1` or `-1`). -/
def entryChars (p : String × Bool) : List Char :=
  ' ' :: '"' :: (p.1.data ++ '"' :: ':' :: ' ' :: (if p.2 then ['-', '1'] else ['1']))

/-- The characters of a comma-separated entry sequence. -/
def entriesChars : List (String × Bool) → List Char
  | [] => []
  | [p] => entryChars p
  | p :: rest => entryChars p ++ ',' :: entriesChars rest

/-- A quoted key followed by a brace-enclosed mapping of key names to
directions (`true` = negative), rendered as in the specification's
example: `"$orderby": { "a": 1, "b": -1, "c": 1 }`. -/
def renderMapping (key : String) (l : List (String × Bool)) : String :=
  "\"" ++ key ++ "\": \x7b" ++ String.mk (entriesChars l) ++ " \x7d"

/-- The argument the specification expects `getArgs` to emit for one
mapping entry: the key, `-`-prefixed when its direction is negative. -/
def expectedArg (p : String × Bool) : String :=
  if p.2 then "-" ++ p.1 else p.1

/-! ## Sample inputs used by concrete witnesses -/

/-- A query content with a full `$query`/`$orderby`/`$hint` envelope,
an integer `ntoreturn` and a fractional float `ntoskip`. -/
def sampleQueryContent : Document :=
  [("query", GoVal.goDoc
      [("$query", GoVal.goDoc [("x", GoVal.goInt64 1)]),
       ("$orderby", GoVal.goDoc [("a", GoVal.goInt64 1), ("b", GoVal.goInt64 (-1))]),
       ("$hint", GoVal.goDoc [("a", GoVal.goInt64 1)])]),
   ("ntoreturn", GoVal.goInt64 5),
   ("ntoskip", GoVal.goFloat64 (mkRat 3 2))]

/-- The raw text the envelope of `sampleQueryContent` was decoded
from, with the key order that `getArgs` relies on. -/
def sampleQueryText : String :=
  "\x7b \"$query\": \x7b \"x\": 1 \x7d, \"$orderby\": \x7b \"a\": 1, \"b\": -1 \x7d, \"$hint\": \x7b \"a\": 1 \x7d \x7d"

/-- A query-typed op over the sample content. -/
def sampleQueryOp : Op :=
  { database := "shop", collection := "orders", type := Query, timestamp := 0,
    content := sampleQueryContent, textContent := sampleQueryText }

/-- An environment whose first attempt fails with a transport error
and whose second succeeds, with attempt durations 3 and 4. -/
def sampleEnv : ExecEnv :=
  { outcome := fun n _ => if n = 0 then some (MgoError.other "socket reset") else none
    results := fun _ _ => [[("r", GoVal.goInt64 1)]]
    dur := fun n => n + 3 }

/-- A plain insert op (no canonicalization applies). -/
def sampleInsertOp : Op :=
  ⟨"db", "c", Insert, 0, [("o", GoVal.goDoc [])], ""⟩

/-- A remove op with distinctive field values. -/
def sampleRemoveOp : Op :=
  ⟨"db", "c", Remove, 3, [], "t"⟩

/-- A recorded findandmodify command envelope. -/
def sampleFamCommandOp : Op :=
  ⟨"db", "", Command, 0,
    [("command", GoVal.goDoc [("findandmodify", GoVal.goString "orders")])], ""⟩

/-- The op record after canonicalizing `sampleFamCommandOp`. -/
def sampleFamCanonOp : Op :=
  ⟨"db", "orders", FindAndModify, 0, [("findandmodify", GoVal.goString "orders")], ""⟩

/-- A recorded count command envelope. -/
def sampleCountCommandOp : Op :=
  ⟨"db", "", Command, 3, [("command", GoVal.goDoc [("count", GoVal.goString "users")])], "t"⟩

/-- The op record after canonicalizing `sampleCountCommandOp`. -/
def sampleCountCanonOp : Op :=
  ⟨"db", "users", Count, 3, [("count", GoVal.goString "users")], "t"⟩

/-- A command envelope for an op kind the replayer cannot canonicalize. -/
def sampleDropCommandOp : Op :=
  ⟨"db", "", Command, 0, [("command", GoVal.goDoc [("drop", GoVal.goString "users")])], ""⟩

/-- A command-typed op whose content has no `command` mapping at all. -/
def sampleBadCommandOp : Op :=
  ⟨"db", "c", Command, 0, [], ""⟩

/-- The invariant of the worker loop: pending nodes are distinct
configured nodes, an in-flight op was genuinely dispatched, and the
completion list holds exactly one entry — carrying that node's own
oracle outcome — for every (node, op) pair the barrier has discharged,
and none for any other triple. -/
def WorkerInv (cfg : FanCfg) (s : WorkerState) : Prop :=
  s.pending.Nodup ∧
  (∀ i ∈ s.pending, i < cfg.numNodes) ∧
  (s.inFlight = true → dispatchedOp cfg s.opIdx) ∧
  (∀ (i j : Nat) (r : Option MgoError),
    execExpected cfg s i j → r = cfg.oracle i j → s.executed.count (i, j, r) = 1) ∧
  (∀ (i j : Nat) (r : Option MgoError),
    ¬ (execExpected cfg s i j ∧ r = cfg.oracle i j) → s.executed.count (i, j, r) = 0)

/-- A one-node configuration delivering a single non-command op. -/
def sampleFanCfg : FanCfg :=
  ⟨[sampleInsertOp], 1, fun _ _ => none⟩

/-- A one-node configuration delivering a single command op that
canonicalization drops. -/
def sampleDropCfg : FanCfg :=
  ⟨[sampleDropCommandOp], 1, fun _ _ => none⟩

/-- A broken-down instant in a UTC-7 zone. -/
def sampleTime : GoTime :=
  ⟨2026, 10, 11, 12, 30, 5, -420⟩

/-- An all-zero status snapshot. -/
def sampleStatus : ExecutionStatus :=
  ⟨0, 0, 0, 0, 0, 0, fun _ => 0, fun _ => 0, fun _ => 0, fun _ => 0⟩

/-! # Theorems -/

/-- Determinization of `retryOnSocketFailure` over a non-panicking
block: the first result with one attempt and no refresh when it is
immediate, otherwise the second result with two attempts and one
refresh. -/
theorem retry_run (block : Nat → Option MgoError) :
    retryOnSocketFailure (fun n => some (block n)) =
      some (if immediateResult (block 0) then (block 0, 1, 0) else (block 1, 2, 1)) := by
  unfold retryOnSocketFailure immediateResult
  cases h0 : block 0 with
  | none => simp [h0]
  | some e => cases e <;> simp [h0, isQueryLevelError]

/-- C2: every invocation wrapped in `retryOnSocketFailure` makes at
most two attempts: the first result is final, with no retry and no
session refresh, exactly when it is a success, a query error, a
last-error response, not-found or the not-supported sentinel;
otherwise the session is refreshed once, the call runs exactly one
more time, and that second outcome is final. -/
theorem claim_c2 (block : Nat → Option MgoError) :
    retryOnSocketFailure (fun n => some (block n)) =
      some (if immediateResult (block 0) then (block 0, 1, 0) else (block 1, 2, 1)) :=
  retry_run block

/-- C9: `Execute` on an op whose type is not one of the six
executor-supported types looks up a missing key in `subExecutes` and
calls the resulting nil function: the call panics (modelled `none`),
so in particular the `NotSupported` sentinel is never returned for
such an op. -/
theorem claim_c9 (env : ExecEnv) (s : ExecutorState) (op : Op) (now : Nat)
    (h : op.type ∉ AllOpTypes) :
    Execute env s op now = none ∧
    Execute env s op now ≠
      some (some MgoError.notSupported, s, now, ([] : List OpStat)) := by
  simp only [AllOpTypes, List.mem_cons, List.not_mem_nil, or_false, not_or] at h
  obtain ⟨h1, h2, h3, h4, h5, h6⟩ := h
  have hlook : lookupExec op.type = none := by
    have e1 : (op.type == Insert) = false := beq_eq_false_iff_ne.mpr h1
    have e2 : (op.type == Update) = false := beq_eq_false_iff_ne.mpr h2
    have e3 : (op.type == Remove) = false := beq_eq_false_iff_ne.mpr h3
    have e4 : (op.type == Query) = false := beq_eq_false_iff_ne.mpr h4
    have e5 : (op.type == Count) = false := beq_eq_false_iff_ne.mpr h5
    have e6 : (op.type == FindAndModify) = false := beq_eq_false_iff_ne.mpr h6
    simp [lookupExec, subExecutes, List.lookup, e1, e2, e3, e4, e5, e6]
  have hblock : blockCall op = none := by
    simp [blockCall, hlook]
  refine ⟨?_, ?_⟩
  · simp [Execute, hblock]
  · simp [Execute, hblock]

/-- Witness for C9 at a raw `command` op that was never canonicalized. -/
theorem claim_c9_witness :
    Execute ⟨fun _ _ => none, fun _ _ => [], fun _ => 1⟩ ⟨true, none, 0⟩
      { database := "db", collection := "c", type := Command, timestamp := 0,
        content := [], textContent := "" } 0 = none := by
  exact (claim_c9 ⟨fun _ _ => none, fun _ _ => [], fun _ => 1⟩ ⟨true, none, 0⟩
    { database := "db", collection := "c", type := Command, timestamp := 0,
      content := [], textContent := "" } 0 (by decide)).1

/-- The base query plan never carries a limit. -/
theorem execQueryBase_limit (c : Document) (t : String) :
    (execQueryBase c t).limit = none := by
  unfold execQueryBase
  rcases hq : docGet c "query" with _ | v
  · rfl
  · cases v <;> simp
    rcases docGet _ "$query" with _ | _ <;> simp

/-- The base query plan never carries a skip. -/
theorem execQueryBase_skip (c : Document) (t : String) :
    (execQueryBase c t).skip = none := by
  unfold execQueryBase
  rcases hq : docGet c "query" with _ | v
  · rfl
  · cases v <;> simp
    rcases docGet _ "$query" with _ | _ <;> simp

/-- `execQuery` only adds limit, skip and log lines to the base plan. -/
theorem execQuery_eq (c : Document) (t : String) :
    execQuery c t =
      ({ execQueryBase c t with
         limit :=
           match docGet c "ntoreturn" with
           | some v => (safeGetInt v).toOption
           | none => none
         skip :=
           match docGet c "ntoskip" with
           | some v => (safeGetInt v).toOption
           | none => none },
       (match docGet c "ntoreturn" with
        | some v =>
          match safeGetInt v with
          | .error e => ["could not set ntoreturn: " ++ e]
          | .ok _ => []
        | none => []) ++
       (match docGet c "ntoskip" with
        | some v =>
          match safeGetInt v with
          | .error e => ["could not set ntoskip: " ++ e]
          | .ok _ => []
        | none => [])) := by
  have hl := execQueryBase_limit c t
  have hsk := execQueryBase_skip c t
  rcases hb : execQueryBase c t with ⟨sel, hnt, srt, lim, sk⟩
  rw [hb] at hl hsk
  simp only at hl hsk
  subst hl hsk
  unfold execQuery
  rw [hb]
  rcases hr : docGet c "ntoreturn" with _ | v <;>
    rcases hs : docGet c "ntoskip" with _ | w
  · simp
  · rcases hw : safeGetInt w with e | n <;> simp [hw, Except.toOption]
  · rcases hv : safeGetInt v with e | n <;> simp [hv, Except.toOption]
  · rcases hv : safeGetInt v with e | n <;> rcases hw : safeGetInt w with e2 | n2 <;>
      simp [hv, hw, Except.toOption]

/-- The plan `execQuery` builds is the plan the specification
describes. -/
theorem execQuery_plan_spec (c : Document) (t : String) :
    (execQuery c t).1 = specQueryPlan c t := by
  rw [execQuery_eq]
  unfold specQueryPlan execQueryBase
  rcases hq : docGet c "query" with _ | v
  · rfl
  · cases v <;> simp
    rcases h2 : docGet _ "$query" with _ | u <;> simp [h2]

/-- For a query-typed op, `Execute` runs the `execQuery` plan through
the retry policy: the final error is the outcome of the first or (for
a retried transport error) second database attempt on that plan, the
latency is the elapsed wall clock across the attempts made, and the
documents the find materialized are stored in `lastResult`. -/
theorem exec_query_run (env : ExecEnv) (s : ExecutorState) (op : Op) (now : Nat)
    (hq : op.type = Query) :
    Execute env s op now =
      (let plan := (execQuery op.content op.textContent).1
       let call := DbCall.queryAll op.database op.collection plan
       let att : Nat := if immediateResult (env.outcome 0 call) then 1 else 2
       let err := if immediateResult (env.outcome 0 call)
                  then env.outcome 0 call else env.outcome 1 call
       some (err,
         { s with lastLatency := elapsed env att,
                  lastResult := some (env.results (att - 1) plan) },
         now + elapsed env att,
         if s.statsAttached then [⟨op.type, elapsed env att, err.isSome⟩] else [])) := by
  have hlook : lookupExec op.type =
      some (fun content textContent database collection =>
        some (DbCall.queryAll database collection (execQuery content textContent).1,
          (execQuery content textContent).2)) := by
    rw [hq]; rfl
  unfold Execute blockCall
  rw [hlook]
  simp only
  rw [retry_run (fun n => env.outcome n
    (DbCall.queryAll op.database op.collection (execQuery op.content op.textContent).1))]
  cases himm : immediateResult (env.outcome 0
      (DbCall.queryAll op.database op.collection (execQuery op.content op.textContent).1)) <;>
    simp [himm, Nat.add_sub_cancel_left, lastResultUpdate]

/-- Determinization of `Execute` for any op whose block builds a
database call without panicking. -/
theorem exec_run (env : ExecEnv) (s : ExecutorState) (op : Op) (now : Nat)
    (call : DbCall) (logs : List String)
    (hbc : blockCall op = some (call, logs)) :
    Execute env s op now =
      (let att : Nat := if immediateResult (env.outcome 0 call) then 1 else 2
       let err := if immediateResult (env.outcome 0 call)
                  then env.outcome 0 call else env.outcome 1 call
       some (err,
         { s with lastLatency := elapsed env att,
                  lastResult := lastResultUpdate env call att s.lastResult },
         now + elapsed env att,
         if s.statsAttached then [⟨op.type, elapsed env att, err.isSome⟩] else [])) := by
  unfold Execute
  rw [hbc]
  simp only
  rw [retry_run (fun n => env.outcome n call)]
  cases himm : immediateResult (env.outcome 0 call) <;>
    simp [himm, Nat.add_sub_cancel_left]

/-- C3: every call to `Execute` that returns (success or failure,
retried or not) emits exactly one `OpStat` on the statistics channel
when one is attached — is_error true iff the final result is an error,
and latency spanning from just before the first attempt to just after
the last — and stores that same latency as `lastLatency`, which
`LastLatency` returns. -/
theorem claim_c3 (env : ExecEnv) (s : ExecutorState) (op : Op) (now : Nat)
    (err : Option MgoError) (s2 : ExecutorState) (now2 : Nat) (stats : List OpStat)
    (h : Execute env s op now = some (err, s2, now2, stats)) :
    stats = (if s.statsAttached then [⟨op.type, now2 - now, err.isSome⟩] else []) ∧
    (s.statsAttached = true → stats.length = 1) ∧
    (s.statsAttached = false → stats = []) ∧
    s2.lastLatency = now2 - now ∧
    LastLatency s2 = now2 - now ∧
    ∃ attempts : Nat, (attempts = 1 ∨ attempts = 2) ∧ now2 = now + elapsed env attempts := by
  cases hbc : blockCall op with
  | none =>
    have hnone : Execute env s op now = none := by unfold Execute; rw [hbc]
    rw [hnone] at h
    exact absurd h (by simp)
  | some pr =>
    obtain ⟨call, logs⟩ := pr
    have hrun := exec_run env s op now call logs hbc
    rw [hrun] at h
    simp only [Option.some.injEq, Prod.mk.injEq] at h
    obtain ⟨he, hs2, hnow, hstats⟩ := h
    subst he hs2 hnow hstats
    refine ⟨by simp [Nat.add_sub_cancel_left], by intro ha; simp [ha],
      by intro ha; simp [ha], by simp [Nat.add_sub_cancel_left],
      by simp [LastLatency, Nat.add_sub_cancel_left],
      (if immediateResult (env.outcome 0 call) then 1 else 2), ?_, rfl⟩
    cases himm : immediateResult (env.outcome 0 call) <;> simp [himm]

/-- Witness for C3: a retried query against `sampleEnv` emits exactly
one OpStat with the latency spanning both attempts, stored as the
executor's last latency. -/
theorem claim_c3_witness :
    LastLatency ⟨true, some [[("r", GoVal.goInt64 1)]], 7⟩ = 7 - 0 ∧
    [(⟨Query, 7, false⟩ : OpStat)] =
      (if (⟨true, none, 0⟩ : ExecutorState).statsAttached
       then [(⟨Query, (7 : Nat) - 0, (none : Option MgoError).isSome⟩ : OpStat)]
       else []) := by
  have h := claim_c3 sampleEnv ⟨true, none, 0⟩ sampleQueryOp 0
    none ⟨true, some [[("r", GoVal.goInt64 1)]], 7⟩ 7 [⟨Query, 7, false⟩] (by rfl)
  exact ⟨h.2.2.2.2.1, h.1⟩

/-- C5: for a query-typed op, `execQuery` builds exactly the find the
specification describes — the inner `$query` of a mapping envelope as
selector, `$hint`/`$orderby` applied through the ordered `getArgs`
lists from the raw text when present, `ntoreturn`/`ntoskip` as limit
and skip when present and numeric — `Execute` runs that plan through
the retry policy, and the materialized result buffer is stored in
`lastResult` while only the error is returned. -/
theorem claim_c5 :
    (∀ (content : Document) (textContent : String),
      (execQuery content textContent).1 = specQueryPlan content textContent) ∧
    (∀ op : Op, op.type = Query →
      blockCall op = some (DbCall.queryAll op.database op.collection
          (specQueryPlan op.content op.textContent),
        (execQuery op.content op.textContent).2)) ∧
    (∀ (env : ExecEnv) (s : ExecutorState) (op : Op) (now : Nat), op.type = Query →
      Execute env s op now =
        (let plan := specQueryPlan op.content op.textContent
         let call := DbCall.queryAll op.database op.collection plan
         let att : Nat := if immediateResult (env.outcome 0 call) then 1 else 2
         let err := if immediateResult (env.outcome 0 call)
                    then env.outcome 0 call else env.outcome 1 call
         some (err,
           { s with lastLatency := elapsed env att,
                    lastResult := some (env.results (att - 1) plan) },
           now + elapsed env att,
           if s.statsAttached then [⟨op.type, elapsed env att, err.isSome⟩] else []))) := by
  refine ⟨execQuery_plan_spec, ?_, ?_⟩
  · intro op hq
    have hlook : lookupExec op.type =
        some (fun content textContent database collection =>
          some (DbCall.queryAll database collection (execQuery content textContent).1,
            (execQuery content textContent).2)) := by
      rw [hq]; rfl
    unfold blockCall
    rw [hlook]
    simp [execQuery_plan_spec]
  · intro env s op now hq
    rw [exec_query_run env s op now hq]
    simp only [execQuery_plan_spec]

/-- Witness for C5: the sample envelope query yields the inner
selector, the ordered hint and sort lists, limit 5 and skip 1
(truncated from the float 1.5), and a retried `Execute` stores the
materialized buffer. -/
theorem claim_c5_witness :
    (execQuery sampleQueryContent sampleQueryText).1 =
      specQueryPlan sampleQueryContent sampleQueryText ∧
    specQueryPlan sampleQueryContent sampleQueryText =
      { selector := some (GoVal.goDoc [("x", GoVal.goInt64 1)])
        hint := some ["a"], sort := some ["a", "-b"]
        limit := some 5, skip := some 1 } ∧
    blockCall sampleQueryOp =
      some (DbCall.queryAll "shop" "orders"
        { selector := some (GoVal.goDoc [("x", GoVal.goInt64 1)])
          hint := some ["a"], sort := some ["a", "-b"]
          limit := some 5, skip := some 1 }, []) ∧
    Execute sampleEnv ⟨true, none, 0⟩ sampleQueryOp 0 =
      some (none, ⟨true, some [[("r", GoVal.goInt64 1)]], 7⟩, 7, [⟨Query, 7, false⟩]) := by
  refine ⟨claim_c5.1 sampleQueryContent sampleQueryText, by rfl,
    (claim_c5.2.1 sampleQueryOp rfl).trans (by rfl),
    (claim_c5.2.2 sampleEnv ⟨true, none, 0⟩ sampleQueryOp 0 rfl).trans (by rfl)⟩

/-- C10: `safeGetInt` converts exactly the dynamic types int32, int64,
float32 and float64 (floats truncated toward zero) and rejects every
other dynamic type, including Go's native int and strings; when it
rejects `ntoreturn` or `ntoskip` inside `execQuery`, the error is only
logged — the find runs without the requested limit or skip and the
op's own outcome still comes from the database attempts alone. -/
theorem claim_c10 :
    (∀ n : Int, safeGetInt (GoVal.goInt32 n) = .ok n) ∧
    (∀ n : Int, safeGetInt (GoVal.goInt64 n) = .ok n) ∧
    (∀ q : Rat, safeGetInt (GoVal.goFloat32 q) = .ok (ratTrunc q)) ∧
    (∀ q : Rat, safeGetInt (GoVal.goFloat64 q) = .ok (ratTrunc q)) ∧
    (∀ n : Int, safeGetInt (GoVal.goInt n) = .error "unsupported type") ∧
    (∀ s : String, safeGetInt (GoVal.goString s) = .error "unsupported type") ∧
    (∀ b : Bool, safeGetInt (GoVal.goBool b) = .error "unsupported type") ∧
    (∀ d : List (String × GoVal), safeGetInt (GoVal.goDoc d) = .error "unsupported type") ∧
    (∀ (content : Document) (textContent : String) (v : GoVal) (e : String),
      docGet content "ntoreturn" = some v → safeGetInt v = .error e →
      (execQuery content textContent).1.limit = none ∧
      ("could not set ntoreturn: " ++ e) ∈ (execQuery content textContent).2) ∧
    (∀ (content : Document) (textContent : String) (v : GoVal) (e : String),
      docGet content "ntoskip" = some v → safeGetInt v = .error e →
      (execQuery content textContent).1.skip = none ∧
      ("could not set ntoskip: " ++ e) ∈ (execQuery content textContent).2) ∧
    (∀ (env : ExecEnv) (s : ExecutorState) (op : Op) (now : Nat), op.type = Query →
      (Execute env s op now).isSome = true) := by
  refine ⟨fun n => rfl, fun n => rfl, fun q => rfl, fun q => rfl,
    fun n => rfl, fun s => rfl, fun b => rfl, fun d => rfl, ?_, ?_, ?_⟩
  · intro content textContent v e hv he
    rw [execQuery_eq]
    simp [hv, he, Except.toOption]
  · intro content textContent v e hv he
    rw [execQuery_eq]
    simp [hv, he, Except.toOption]
  · intro env s op now hq
    rw [exec_query_run env s op now hq]
    simp

/-- Witness for C10: a content whose `ntoreturn` is a string and whose
`ntoskip` is a native int loses both the limit and the skip, logs both
errors, and a query op over it still completes. -/
theorem claim_c10_witness :
    safeGetInt (GoVal.goInt 7) = .error "unsupported type" ∧
    safeGetInt (GoVal.goFloat64 (mkRat (-7) 2)) = .ok (-3) ∧
    ((execQuery [("ntoreturn", GoVal.goString "bad"), ("ntoskip", GoVal.goInt 7)] "t").1.limit
        = none ∧
      ("could not set ntoreturn: " ++ "unsupported type") ∈
        (execQuery [("ntoreturn", GoVal.goString "bad"), ("ntoskip", GoVal.goInt 7)] "t").2) ∧
    ((execQuery [("ntoreturn", GoVal.goString "bad"), ("ntoskip", GoVal.goInt 7)] "t").1.skip
        = none ∧
      ("could not set ntoskip: " ++ "unsupported type") ∈
        (execQuery [("ntoreturn", GoVal.goString "bad"), ("ntoskip", GoVal.goInt 7)] "t").2) ∧
    (Execute sampleEnv ⟨true, none, 0⟩
        { sampleQueryOp with content :=
            [("ntoreturn", GoVal.goString "bad"), ("ntoskip", GoVal.goInt 7)] } 0).isSome
      = true := by
  refine ⟨claim_c10.2.2.2.2.1 7,
    (claim_c10.2.2.2.1 (mkRat (-7) 2)).trans (congrArg Except.ok (by decide)),
    claim_c10.2.2.2.2.2.2.2.2.1 _ "t" _ _ rfl rfl,
    claim_c10.2.2.2.2.2.2.2.2.2.1 _ "t" _ _ rfl rfl,
    claim_c10.2.2.2.2.2.2.2.2.2.2 sampleEnv ⟨true, none, 0⟩ _ 0 rfl⟩

/-- C1 counterexample: a `command`-typed op with no `command` mapping
in its content.  The claim says any command op without a
`findandmodify` or `count` key yields the drop sentinel
(`some (none, _)` here), but the code's type assertion
`op.Content["command"].(map[string]interface{})` panics on the nil
value, modelled `none` — so no drop sentinel is returned. -/
theorem claim_c1_counterexample :
    CanonicalizeOp sampleBadCommandOp = none := by
  rfl

/-- C1 (amended): for every `command`-typed op whose `content.command`
is a mapping, a `findandmodify` or `count` key with a string value
rewrites the type to the corresponding canonical tag, sets the
collection to that value and promotes the content to the inner
mapping (`findandmodify` checked first); with neither key the drop
sentinel is returned; a non-command op is returned unchanged.  (When
`content.command` is missing or not a mapping, or the matched key's
value is not a string, the code panics instead.) -/
theorem claim_c1 :
    (∀ op : Op, op.type ≠ Command → CanonicalizeOp op = some (some op, op)) ∧
    (∀ (op : Op) (cmd : List (String × GoVal)) (collName : String),
      op.type = Command →
      docGet op.content "command" = some (GoVal.goDoc cmd) →
      docGet cmd "findandmodify" = some (GoVal.goString collName) →
      CanonicalizeOp op =
        some (some { op with type := FindAndModify, collection := collName, content := cmd },
              { op with type := FindAndModify, collection := collName, content := cmd })) ∧
    (∀ (op : Op) (cmd : List (String × GoVal)) (collName : String),
      op.type = Command →
      docGet op.content "command" = some (GoVal.goDoc cmd) →
      docGet cmd "findandmodify" = none →
      docGet cmd "count" = some (GoVal.goString collName) →
      CanonicalizeOp op =
        some (some { op with type := Count, collection := collName, content := cmd },
              { op with type := Count, collection := collName, content := cmd })) ∧
    (∀ (op : Op) (cmd : List (String × GoVal)),
      op.type = Command →
      docGet op.content "command" = some (GoVal.goDoc cmd) →
      docGet cmd "findandmodify" = none →
      docGet cmd "count" = none →
      CanonicalizeOp op = some (none, op)) := by
  refine ⟨?_, ?_, ?_, ?_⟩
  · intro op hne
    unfold CanonicalizeOp
    rw [if_pos hne]
  · intro op cmd collName hty hcmd hfam
    unfold CanonicalizeOp
    simp [hty, hcmd, hfam, FindAndModify]
  · intro op cmd collName hty hcmd hfam hcount
    unfold CanonicalizeOp
    simp [hty, hcmd, hfam, hcount, Count]
  · intro op cmd hty hcmd hfam hcount
    unfold CanonicalizeOp
    simp [hty, hcmd, hfam, hcount]

/-- Witness for C1 (amended) at one op of each shape: a non-command
op, a findandmodify command, a count command and an unknown command. -/
theorem claim_c1_witness :
    CanonicalizeOp sampleInsertOp = some (some sampleInsertOp, sampleInsertOp) ∧
    CanonicalizeOp sampleFamCommandOp = some (some sampleFamCanonOp, sampleFamCanonOp) ∧
    CanonicalizeOp sampleCountCommandOp =
      some (some sampleCountCanonOp, sampleCountCanonOp) ∧
    CanonicalizeOp sampleDropCommandOp = some (none, sampleDropCommandOp) := by
  refine ⟨claim_c1.1 sampleInsertOp (by decide), ?_, ?_, ?_⟩
  · exact (claim_c1.2.1 sampleFamCommandOp
      [("findandmodify", GoVal.goString "orders")] "orders" rfl rfl rfl).trans (by rfl)
  · exact (claim_c1.2.2.1 sampleCountCommandOp
      [("count", GoVal.goString "users")] "users" rfl rfl rfl rfl).trans (by rfl)
  · exact claim_c1.2.2.2 sampleDropCommandOp
      [("drop", GoVal.goString "users")] rfl rfl rfl rfl

/-- C6 counterexample: canonicalizing a findandmodify command mutates
the caller's op record in place — after the call the record's type is
the canonical tag, not the original `command` — contradicting the
claim that the input op's original fields are left as they were. -/
theorem claim_c6_counterexample :
    CanonicalizeOp sampleFamCommandOp = some (some sampleFamCanonOp, sampleFamCanonOp) ∧
    sampleFamCanonOp.type ≠ sampleFamCommandOp.type ∧
    sampleFamCanonOp.collection ≠ sampleFamCommandOp.collection ∧
    sampleFamCanonOp.content ≠ sampleFamCommandOp.content := by
  refine ⟨rfl, by decide, by decide, ?_⟩
  intro hc
  simp [sampleFamCanonOp, sampleFamCommandOp] at hc

/-- C6 (amended): `CanonicalizeOp` returns a non-command op unchanged
without touching the record; in every non-panicking case the record's
database, timestamp and raw text are untouched, the returned pointer
(when non-nil) aliases the caller's record, and the drop case leaves
the record exactly as it was — but in the canonical-rewrite case the
type, collection and content of the caller's record are updated in
place. -/
theorem claim_c6 :
    (∀ op : Op, op.type ≠ Command → CanonicalizeOp op = some (some op, op)) ∧
    (∀ (op rec : Op) (ret : Option Op), CanonicalizeOp op = some (ret, rec) →
      rec.database = op.database ∧ rec.timestamp = op.timestamp ∧
      rec.textContent = op.textContent ∧
      (ret = none → rec = op) ∧
      (∀ r : Op, ret = some r → r = rec)) := by
  constructor
  · intro op hne
    unfold CanonicalizeOp
    rw [if_pos hne]
  · intro op rec ret h
    unfold CanonicalizeOp at h
    split at h
    · simp only [Option.some.injEq, Prod.mk.injEq] at h
      obtain ⟨h1, h2⟩ := h
      subst h2
      subst h1
      exact ⟨rfl, rfl, rfl, by simp, fun r hr => by simpa using hr.symm⟩
    · split at h
      · split at h
        · simp only [Option.some.injEq, Prod.mk.injEq] at h
          obtain ⟨h1, h2⟩ := h
          subst h2
          subst h1
          exact ⟨rfl, rfl, rfl, by simp, fun r hr => by simpa using hr.symm⟩
        · exact absurd h (by simp)
        · split at h
          · simp only [Option.some.injEq, Prod.mk.injEq] at h
            obtain ⟨h1, h2⟩ := h
            subst h2
            subst h1
            exact ⟨rfl, rfl, rfl, by simp, fun r hr => by simpa using hr.symm⟩
          · exact absurd h (by simp)
          · simp only [Option.some.injEq, Prod.mk.injEq] at h
            obtain ⟨h1, h2⟩ := h
            subst h2
            subst h1
            exact ⟨rfl, rfl, rfl, fun _ => rfl, fun r hr => by simp at hr⟩
      · exact absurd h (by simp)

/-- Witness for C6 (amended): a non-command op is returned unchanged,
and for a canonicalized count command the returned op aliases the
mutated record while database, timestamp and text are untouched. -/
theorem claim_c6_witness :
    CanonicalizeOp sampleRemoveOp = some (some sampleRemoveOp, sampleRemoveOp) ∧
    (sampleCountCanonOp.database = sampleCountCommandOp.database ∧
      sampleCountCanonOp.timestamp = sampleCountCommandOp.timestamp ∧
      sampleCountCanonOp.textContent = sampleCountCommandOp.textContent) := by
  constructor
  · exact claim_c6.1 sampleRemoveOp (by decide)
  · have h := claim_c6.2 sampleCountCommandOp sampleCountCanonOp
      (some sampleCountCanonOp) rfl
    exact ⟨h.1, h.2.1, h.2.2.1⟩

/-- Prefixing the last element commutes with appending it. -/
theorem negateLast_concat (xs : List String) (a : String) :
    negateLast (xs ++ [a]) = xs ++ ["-" ++ a] := by
  induction xs with
  | nil => rfl
  | cons x t ih =>
    cases t with
    | nil => rfl
    | cons y t2 =>
      have hstep : negateLast ((x :: y :: t2) ++ [a]) =
          x :: negateLast ((y :: t2) ++ [a]) := rfl
      rw [hstep, ih]
      rfl

/-- In state 0, any character other than `}` and `"` is skipped. -/
theorem getArgsLoop_skip0 (c : Char) (rest : List Char) (buf : String)
    (args : List String) (h1 : c ≠ '}') (h2 : c ≠ '"') :
    getArgsLoop (c :: rest) 0 buf args = getArgsLoop rest 0 buf args := by
  simp [getArgsLoop, h1, h2]

/-- In state 1, the key's characters accumulate into the buffer until
the closing quote, which emits the buffer and enters state 2. -/
theorem getArgsLoop_key (cs : List Char) (rest : List Char) (buf : String)
    (args : List String) (h : '"' ∉ cs) :
    getArgsLoop (cs ++ '"' :: rest) 1 buf args =
      getArgsLoop rest 2 "" (args ++ [buf ++ String.mk cs]) := by
  induction cs generalizing buf with
  | nil =>
    have : buf ++ String.mk [] = buf := by
      apply congrArg String.mk
      simp
    simp [getArgsLoop, this]
  | cons c cs ih =>
    have hc : c ≠ '"' := by
      intro hc
      exact h (by simp [hc])
    have hrest : '"' ∉ cs := fun hm => h (by simp [hm])
    have hpush : buf.push c ++ String.mk cs = buf ++ String.mk (c :: cs) := by
      apply congrArg String.mk
      simp [String.push]
    rw [List.cons_append]
    rw [show getArgsLoop (c :: (cs ++ '"' :: rest)) 1 buf args =
        getArgsLoop (cs ++ '"' :: rest) 1 (buf.push c) args by simp [getArgsLoop, hc]]
    rw [ih (buf.push c) hrest, hpush]

/-- In state 2, any character other than `-` and `1` is skipped. -/
theorem getArgsLoop_skip2 (c : Char) (rest : List Char) (buf : String)
    (args : List String) (h1 : c ≠ '-') (h2 : c ≠ '1') :
    getArgsLoop (c :: rest) 2 buf args = getArgsLoop rest 2 buf args := by
  simp [getArgsLoop, h1, h2]

/-- Processing one rendered mapping entry from state 0 emits exactly
the expected argument and returns to state 0 with an empty buffer. -/
theorem getArgsLoop_entry (p : String × Bool) (rest : List Char)
    (args : List String) (h : '"' ∉ p.1.data) :
    getArgsLoop (entryChars p ++ rest) 0 "" args =
      getArgsLoop rest 0 "" (args ++ [expectedArg p]) := by
  unfold entryChars
  rw [List.cons_append, getArgsLoop_skip0 ' ' _ _ _ (by decide) (by decide)]
  rw [List.cons_append,
    show getArgsLoop ('"' :: (p.1.data ++ '"' :: ':' :: ' ' ::
        (if p.2 then ['-', '1'] else ['1']) ++ rest)) 0 "" args =
      getArgsLoop (p.1.data ++ '"' :: ':' :: ' ' ::
        (if p.2 then ['-', '1'] else ['1']) ++ rest) 1 "" args by
      simp [getArgsLoop]]
  have hassoc : (p.1.data ++ '"' :: ':' :: ' ' ::
      (if p.2 then ['-', '1'] else ['1']) ++ rest) =
      p.1.data ++ '"' :: (':' :: ' ' ::
        ((if p.2 then ['-', '1'] else ['1']) ++ rest)) := by
    simp
  rw [hassoc, getArgsLoop_key p.1.data _ "" args h]
  have hbuf : ("" ++ String.mk p.1.data) = p.1 := by
    apply congrArg String.mk
    simp
  rw [hbuf]
  rw [getArgsLoop_skip2 ':' _ _ _ (by decide) (by decide)]
  rw [getArgsLoop_skip2 ' ' _ _ _ (by decide) (by decide)]
  cases hneg : p.2 with
  | true =>
    rw [if_pos rfl, List.cons_append,
      show getArgsLoop ('-' :: (['1'] ++ rest)) 2 "" (args ++ [p.1]) =
        getArgsLoop (['1'] ++ rest) 2 "" (negateLast (args ++ [p.1])) by
        simp [getArgsLoop]]
    rw [negateLast_concat]
    rw [show getArgsLoop (['1'] ++ rest) 2 "" (args ++ ["-" ++ p.1]) =
        getArgsLoop rest 0 "" (args ++ ["-" ++ p.1]) by simp [getArgsLoop]]
    simp [expectedArg, hneg]
  | false =>
    rw [if_neg (by simp)]
    rw [show getArgsLoop (['1'] ++ rest) 2 "" (args ++ [p.1]) =
        getArgsLoop rest 0 "" (args ++ [p.1]) by simp [getArgsLoop]]
    simp [expectedArg, hneg]

/-- Walking the rendered entries up to the closing brace collects the
expected arguments in textual order. -/
theorem getArgsLoop_entries (l : List (String × Bool)) (post : List Char)
    (args : List String) (h : ∀ p ∈ l, '"' ∉ p.1.data) :
    getArgsLoop (entriesChars l ++ ' ' :: '}' :: post) 0 "" args =
      args ++ l.map expectedArg := by
  induction l generalizing args with
  | nil =>
    rw [show entriesChars [] = [] from rfl, List.nil_append]
    rw [getArgsLoop_skip0 ' ' _ _ _ (by decide) (by decide)]
    simp [getArgsLoop]
  | cons p t ih =>
    cases t with
    | nil =>
      rw [show entriesChars [p] = entryChars p from rfl]
      rw [getArgsLoop_entry p _ args (h p (by simp))]
      rw [getArgsLoop_skip0 ' ' _ _ _ (by decide) (by decide)]
      simp [getArgsLoop]
    | cons q u =>
      rw [show entriesChars (p :: q :: u) = entryChars p ++ ',' :: entriesChars (q :: u)
        from rfl]
      have hassoc : (entryChars p ++ ',' :: entriesChars (q :: u)) ++ ' ' :: '}' :: post =
          entryChars p ++ (',' :: (entriesChars (q :: u) ++ ' ' :: '}' :: post)) := by
        simp
      rw [hassoc, getArgsLoop_entry p _ args (h p (by simp))]
      rw [getArgsLoop_skip0 ',' _ _ _ (by decide) (by decide)]
      rw [ih (args ++ [expectedArg p]) (fun r hr => h r (List.mem_cons_of_mem _ hr))]
      simp [expectedArg]

/-- C4: for every text in which the quoted key (located by the scan at
the end of an arbitrary prefix) is followed by a rendered
brace-enclosed mapping of key names to directions, `getArgs` returns
the mapping's keys in textual order, each `-`-prefixed exactly when
its direction is negative. -/
theorem claim_c4 (pre post key : String) (l : List (String × Bool))
    (hkeys : ∀ p ∈ l, '"' ∉ p.1.data)
    (hidx : strIndex (pre ++ renderMapping key l ++ post).data
        (("\"" ++ key ++ "\"").data) = some pre.length) :
    getArgs (pre ++ renderMapping key l ++ post) key = l.map expectedArg := by
  have h1 : ("\"" : String).data = ['"'] := rfl
  have h2 : ("\": \x7b" : String).data = ['"', ':', ' ', '{'] := rfl
  have h3 : (" \x7d" : String).data = [' ', '}'] := rfl
  have hdata : (pre ++ renderMapping key l ++ post).data =
      pre.data ++ ('"' :: (key.data ++ ('"' :: ':' :: ' ' :: '{' ::
        (entriesChars l ++ ' ' :: '}' :: post.data)))) := by
    simp [renderMapping, String.data_append, h1, h2, h3]
  simp only [getArgs, hidx]
  rw [hdata]
  have hN : (((pre.length : Int)) + ↑key.length + 2).toNat =
      pre.data.length + (key.length + 2) := by
    have hp : pre.length = pre.data.length := rfl
    omega
  rw [hN, List.drop_append]
  rw [show key.length + 2 = (key.length + 1) + 1 from rfl, List.drop_succ_cons]
  rw [show key.length + 1 = key.data.length + 1 from rfl, List.drop_append]
  rw [List.drop_succ_cons, List.drop_zero]
  rw [getArgsLoop_skip0 ':' _ _ _ (by decide) (by decide)]
  rw [getArgsLoop_skip0 ' ' _ _ _ (by decide) (by decide)]
  rw [getArgsLoop_skip0 '{' _ _ _ (by decide) (by decide)]
  simpa using getArgsLoop_entries l post.data [] hkeys

/-- Witness for C4: the specification's example — for the textual
input of an `$orderby` mapping, `getArgs` yields the keys in order
with `b` negated. -/
theorem claim_c4_witness :
    getArgs "\"$orderby\": \x7b \"a\": 1, \"b\": -1, \"c\": 1 \x7d" "$orderby" =
      ["a", "-b", "c"] := by
  have h := claim_c4 "" "" "$orderby" [("a", false), ("b", true), ("c", false)]
    (by decide) (by decide)
  have heq : ("" ++ renderMapping "$orderby" [("a", false), ("b", true), ("c", false)] ++ "")
      = "\"$orderby\": \x7b \"a\": 1, \"b\": -1, \"c\": 1 \x7d" := by decide
  rw [heq] at h
  exact h

/-- Spawning the fan-out does not change which completions are
expected. -/
theorem expected_dispatch (cfg : FanCfg) (s : WorkerState)
    (hflight : s.inFlight = false) (i j : Nat) :
    execExpected cfg { s with inFlight := true, pending := List.range cfg.numNodes } i j ↔
      execExpected cfg s i j := by
  unfold execExpected
  constructor
  · rintro ⟨hi, hc⟩
    rcases hc with hfst | ⟨_, _, hnmem⟩
    · exact ⟨hi, Or.inl hfst⟩
    · exact absurd (List.mem_range.mpr hi) hnmem
  · rintro ⟨hi, hc⟩
    rcases hc with hfst | ⟨hf, _, _⟩
    · exact ⟨hi, Or.inl hfst⟩
    · rw [hflight] at hf
      exact absurd hf (by simp)

/-- Skipping a dropped op does not change which completions are
expected. -/
theorem expected_skip (cfg : FanCfg) (s : WorkerState)
    (hflight : s.inFlight = false) (hnd : ¬ dispatchedOp cfg s.opIdx) (i j : Nat) :
    execExpected cfg { s with opIdx := s.opIdx + 1 } i j ↔
      execExpected cfg s i j := by
  unfold execExpected
  constructor
  · rintro ⟨hi, hc⟩
    rcases hc with ⟨hj, hd⟩ | ⟨hf, _, _⟩
    · rcases Nat.lt_succ_iff_lt_or_eq.mp hj with hj2 | hj2
      · exact ⟨hi, Or.inl ⟨hj2, hd⟩⟩
      · subst hj2
        exact absurd hd hnd
    · rw [hflight] at hf
      exact absurd hf (by simp)
  · rintro ⟨hi, hc⟩
    rcases hc with ⟨hj, hd⟩ | ⟨hf, _, _⟩
    · exact ⟨hi, Or.inl ⟨Nat.lt_succ_of_lt hj, hd⟩⟩
    · rw [hflight] at hf
      exact absurd hf (by simp)

/-- Joining an emptied fan-out moves the in-flight op into the
advanced prefix without changing which completions are expected. -/
theorem expected_join (cfg : FanCfg) (s : WorkerState)
    (hflight : s.inFlight = true) (hpending : s.pending = [])
    (hdisp : dispatchedOp cfg s.opIdx) (i j : Nat) :
    execExpected cfg { s with inFlight := false, opIdx := s.opIdx + 1 } i j ↔
      execExpected cfg s i j := by
  unfold execExpected
  constructor
  · rintro ⟨hi, hc⟩
    rcases hc with ⟨hj, hd⟩ | ⟨hf, _, _⟩
    · rcases Nat.lt_succ_iff_lt_or_eq.mp hj with hj2 | hj2
      · exact ⟨hi, Or.inl ⟨hj2, hd⟩⟩
      · subst hj2
        exact ⟨hi, Or.inr ⟨hflight, rfl, by simp [hpending]⟩⟩
    · exact absurd hf (by simp)
  · rintro ⟨hi, hc⟩
    rcases hc with ⟨hj, hd⟩ | ⟨_, hj, _⟩
    · exact ⟨hi, Or.inl ⟨Nat.lt_succ_of_lt hj, hd⟩⟩
    · subst hj
      exact ⟨hi, Or.inl ⟨Nat.lt_succ_self _, hdisp⟩⟩

/-- A skip step's op is not dispatched. -/
theorem skip_not_dispatched (cfg : FanCfg) (j : Nat) (op rec : Op)
    (hop : cfg.ops[j]? = some op)
    (hcanon : CanonicalizeOp op = some (none, rec)) :
    ¬ dispatchedOp cfg j := by
  rintro ⟨op2, opC, rec2, hop2, hcanon2⟩
  rw [hop] at hop2
  obtain rfl : op2 = op := by simpa using hop2.symm
  rw [hcanon] at hcanon2
  simp at hcanon2

/-- The worker invariant holds initially. -/
theorem winv_init (cfg : FanCfg) : WorkerInv cfg initWorker := by
  refine ⟨List.nodup_nil, by simp [initWorker], by simp [initWorker], ?_, ?_⟩
  · intro i j r he _
    unfold execExpected at he
    rcases he with ⟨_, hc⟩
    rcases hc with ⟨hj, _⟩ | ⟨hf, _, _⟩
    · exact absurd hj (by simp [initWorker])
    · exact absurd hf (by simp [initWorker])
  · intro i j r _
    simp [initWorker]

/-- The worker invariant is preserved by every step. -/
theorem winv_step (cfg : FanCfg) (s s2 : WorkerState) (hinv : WorkerInv cfg s)
    (hstep : WStep cfg s s2) : WorkerInv cfg s2 := by
  obtain ⟨hnd, hbound, hdisp, hcnt1, hcnt0⟩ := hinv
  cases hstep with
  | dispatch op opC rec hflight hop hcanon =>
    refine ⟨List.nodup_range _, fun i hi => List.mem_range.mp hi, ?_, ?_, ?_⟩
    · intro _
      exact ⟨op, opC, rec, hop, hcanon⟩
    · intro i j r he hr
      exact hcnt1 i j r ((expected_dispatch cfg s hflight i j).mp he) hr
    · intro i j r hne
      refine hcnt0 i j r ?_
      rintro ⟨he, hr⟩
      exact hne ⟨(expected_dispatch cfg s hflight i j).mpr he, hr⟩
  | skip op rec hflight hop hcanon =>
    have hnd2 := skip_not_dispatched cfg s.opIdx op rec hop hcanon
    refine ⟨hnd, hbound, ?_, ?_, ?_⟩
    · intro hf
      exact absurd (hflight ▸ hf) (by simp)
    · intro i j r he hr
      exact hcnt1 i j r ((expected_skip cfg s hflight hnd2 i j).mp he) hr
    · intro i j r hne
      refine hcnt0 i j r ?_
      rintro ⟨he, hr⟩
      exact hne ⟨(expected_skip cfg s hflight hnd2 i j).mpr he, hr⟩
  | join hflight hpending =>
    have hd := hdisp hflight
    refine ⟨hnd, hbound, ?_, ?_, ?_⟩
    · intro hf
      exact absurd hf (by simp)
    · intro i j r he hr
      exact hcnt1 i j r ((expected_join cfg s hflight hpending hd i j).mp he) hr
    · intro i j r hne
      refine hcnt0 i j r ?_
      rintro ⟨he, hr⟩
      exact hne ⟨(expected_join cfg s hflight hpending hd i j).mpr he, hr⟩
  | complete i hflight hi =>
    refine ⟨List.Nodup.erase i hnd, ?_, hdisp, ?_, ?_⟩
    · intro i2 hi2
      exact hbound i2 ((List.Nodup.mem_erase_iff hnd).mp hi2).2
    · intro i2 j r he hr
      rw [List.count_append, List.count_singleton]
      by_cases htrip : ((i, s.opIdx, cfg.oracle i s.opIdx) :
          Nat × Nat × Option MgoError) = (i2, j, r)
      · obtain ⟨rfl, rfl, rfl⟩ : i = i2 ∧ s.opIdx = j ∧ cfg.oracle i s.opIdx = r := by
          simpa using htrip
        rw [if_pos (by simp)]
        have hz : s.executed.count (i, s.opIdx, cfg.oracle i s.opIdx) = 0 := by
          refine hcnt0 i s.opIdx _ ?_
          rintro ⟨⟨_, hc⟩, _⟩
          rcases hc with ⟨hj, _⟩ | ⟨_, _, hnmem⟩
          · exact absurd hj (by omega)
          · exact hnmem hi
        omega
      · rw [if_neg (by simpa using htrip)]
        have he2 : execExpected cfg s i2 j := by
          unfold execExpected at he ⊢
          rcases he with ⟨hi2, hc⟩
          rcases hc with hfst | ⟨hf, hj, hnmem⟩
          · exact ⟨hi2, Or.inl hfst⟩
          · by_cases hii : i2 = i
            · subst hii
              exfalso
              apply htrip
              have hj2 : j = s.opIdx := hj
              subst hj2
              rw [hr]
            · refine ⟨hi2, Or.inr ⟨hf, hj, ?_⟩⟩
              intro hmem
              exact hnmem ((List.mem_erase_of_ne hii).mpr hmem)
        rw [hcnt1 i2 j r he2 hr]
    · intro i2 j r hne
      rw [List.count_append, List.count_singleton]
      have hns : ¬ ((i, s.opIdx, cfg.oracle i s.opIdx) :
          Nat × Nat × Option MgoError) = (i2, j, r) := by
        rintro heq
        obtain ⟨rfl, rfl, rfl⟩ : i = i2 ∧ s.opIdx = j ∧ cfg.oracle i s.opIdx = r := by
          simpa using heq
        refine hne ⟨⟨hbound i hi, Or.inr ⟨hflight, rfl, ?_⟩⟩, rfl⟩
        intro hmem
        exact ((List.Nodup.mem_erase_iff hnd).mp hmem).1 rfl
      rw [if_neg (by simpa using hns)]
      have hz : s.executed.count (i2, j, r) = 0 := by
        refine hcnt0 i2 j r ?_
        rintro ⟨he, hr⟩
        refine hne ⟨?_, hr⟩
        unfold execExpected at he ⊢
        rcases he with ⟨hi2, hc⟩
        rcases hc with hfst | ⟨hf, hj, hnmem⟩
        · exact ⟨hi2, Or.inl hfst⟩
        · refine ⟨hi2, Or.inr ⟨hf, hj, ?_⟩⟩
          intro hmem
          exact hnmem ((List.Nodup.mem_erase_iff hnd).mp hmem).2
      omega

/-- The worker invariant holds in every reachable state. -/
theorem winv_reach (cfg : FanCfg) (s : WorkerState) (h : WReach cfg s) :
    WorkerInv cfg s := by
  induction h with
  | refl => exact winv_init cfg
  | tail _ hbc ih => exact winv_step cfg _ _ ih hbc

/-- C7 (amended): in every reachable worker state, every op the worker
has advanced past that canonicalization did not drop has been executed
exactly once by every configured node — the worker does not advance
until all nodes' executors have returned — and every recorded
completion carries its own node's outcome, so one node's failure does
not affect dispatch to, or completion on, the others. -/
theorem claim_c7 (cfg : FanCfg) (s : WorkerState) (hreach : WReach cfg s) :
    (∀ j, j < s.opIdx → dispatchedOp cfg j →
      ∀ i, i < cfg.numNodes → s.executed.count (i, j, cfg.oracle i j) = 1) ∧
    (∀ i j r, (i, j, r) ∈ s.executed → r = cfg.oracle i j ∧ i < cfg.numNodes) ∧
    (∀ i j r, s.inFlight = false → (i, j, r) ∈ s.executed → j < s.opIdx) := by
  obtain ⟨_, _, _, hcnt1, hcnt0⟩ := winv_reach cfg s hreach
  refine ⟨?_, ?_, ?_⟩
  · intro j hj hd i hi
    exact hcnt1 i j _ ⟨hi, Or.inl ⟨hj, hd⟩⟩ rfl
  · intro i j r hmem
    by_contra hcon
    have hz : s.executed.count (i, j, r) = 0 := by
      refine hcnt0 i j r ?_
      rintro ⟨⟨hi, _⟩, hr⟩
      exact hcon ⟨hr, hi⟩
    rw [List.count_eq_zero] at hz
    exact hz hmem
  · intro i j r hflight hmem
    by_contra hcon
    have hz : s.executed.count (i, j, r) = 0 := by
      refine hcnt0 i j r ?_
      rintro ⟨⟨_, hc⟩, _⟩
      rcases hc with ⟨hj, _⟩ | ⟨hf, _, _⟩
      · exact hcon hj
      · rw [hflight] at hf
        exact absurd hf (by simp)
    rw [List.count_eq_zero] at hz
    exact hz hmem

/-- C7 counterexample: the worker receives a command op that
canonicalization drops, advances past it, and never dispatches it to
the (single) configured node — no completion is ever recorded — so
"dispatches it to the executor of every configured node" fails for
ops the canonicalizer rejects. -/
theorem claim_c7_counterexample :
    WReach sampleDropCfg ⟨1, false, [], []⟩ ∧
    (⟨1, false, [], []⟩ : WorkerState).executed = [] := by
  constructor
  · exact Relation.ReflTransGen.single
      (WStep.skip initWorker sampleDropCommandOp sampleDropCommandOp rfl rfl rfl)
  · rfl

/-- Witness for C7 at a full run of `sampleFanCfg`: dispatch, one
completion, join — the single node executed the single op exactly
once with its own outcome. -/
theorem claim_c7_witness :
    ([((0 : Nat), (0 : Nat), (none : Option MgoError))] :
        List (Nat × Nat × Option MgoError)).count
      (0, 0, sampleFanCfg.oracle 0 0) = 1 := by
  have h1 : WStep sampleFanCfg initWorker ⟨0, true, [0], []⟩ :=
    WStep.dispatch initWorker sampleInsertOp sampleInsertOp sampleInsertOp rfl rfl rfl
  have h2 : WStep sampleFanCfg ⟨0, true, [0], []⟩ ⟨0, true, [], [(0, 0, none)]⟩ :=
    WStep.complete ⟨0, true, [0], []⟩ 0 rfl (by simp)
  have h3 : WStep sampleFanCfg ⟨0, true, [], [(0, 0, none)]⟩ ⟨1, false, [], [(0, 0, none)]⟩ :=
    WStep.join ⟨0, true, [], [(0, 0, none)]⟩ rfl rfl
  have hreach : WReach sampleFanCfg ⟨1, false, [], [(0, 0, none)]⟩ :=
    Relation.ReflTransGen.head h1 (Relation.ReflTransGen.head h2
      (Relation.ReflTransGen.single h3))
  exact (claim_c7 sampleFanCfg ⟨1, false, [], [(0, 0, none)]⟩ hreach).1 0 (by decide)
    ⟨sampleInsertOp, sampleInsertOp, sampleInsertOp, rfl, rfl⟩ 0 (by decide)

/-- Folding string append distributes over the initial value. -/
theorem foldl_append_init (l : List String) (a b : String) :
    l.foldl (· ++ ·) (a ++ b) = a ++ l.foldl (· ++ ·) b := by
  induction l generalizing b with
  | nil => simp
  | cons x xs ih =>
    simp only [List.foldl_cons]
    rw [String.append_assoc, ih]

/-- Unfolding one element of `String.join`. -/
theorem join_cons (s : String) (l : List String) :
    String.join (s :: l) = s ++ String.join l := by
  show l.foldl (· ++ ·) ("" ++ s) = s ++ String.join l
  rw [String.empty_append]
  have h : l.foldl (· ++ ·) s = l.foldl (· ++ ·) (s ++ "") := by
    rw [String.append_empty]
  rw [h, foldl_append_init l s ""]
  rfl

/-- The `Sprintf` fold of `printStatus` appends, to its initial
string, one `,count,rate` pair per op type in list order. -/
theorem foldl_statFields (fmtF : Rat → String) (st : ExecutionStatus)
    (types : List OpType) (init : String) :
    types.foldl (fun acc t => statFields fmtF acc (st.intervalCounts t)
        (st.intervalTypeOpsSec t)) init =
      init ++ String.join (types.map fun t =>
        "," ++ toString (st.intervalCounts t) ++ "," ++ fmtF (st.intervalTypeOpsSec t)) := by
  induction types generalizing init with
  | nil =>
    rw [List.foldl_nil, List.map_nil, show String.join [] = "" from rfl,
      String.append_empty]
  | cons t ts ih =>
    simp only [List.foldl_cons, List.map_cons]
    rw [ih, join_cons]
    unfold statFields
    simp [String.append_assoc]

/-- The CSV line is the timestamp, the interval totals, then one
`,count,rate` pair per op type in the canonical order. -/
theorem printStatusLine_eq (fmtF : Rat → String) (ts : GoTime) (st : ExecutionStatus) :
    printStatusLine fmtF ts st =
      timeFormat ts ++ "," ++ toString st.intervalOpsExecuted ++ ","
        ++ fmtF st.intervalOpsPerSec
        ++ String.join (AllOpTypes.map fun t =>
            "," ++ toString (st.intervalCounts t) ++ "," ++ fmtF (st.intervalTypeOpsSec t)) := by
  unfold printStatusLine
  rw [foldl_statFields]
  unfold statFields
  simp [String.append_assoc]

/-- A run of report ticks appends exactly one line per tick when a
stats file is attached and writes nothing otherwise. -/
theorem reportTicks_run (fmtF : Rat → String) (ticks : List (GoTime × ExecutionStatus))
    (file : List String) :
    reportTicksFile fmtF true ticks file =
      file ++ ticks.map (fun p => printStatusLine fmtF p.1 p.2 ++ "\n") ∧
    reportTicksFile fmtF false ticks file = file := by
  induction ticks generalizing file with
  | nil => exact ⟨by simp [reportTicksFile], by simp [reportTicksFile]⟩
  | cons p ts ih =>
    constructor
    · have h1 : reportTicksFile fmtF true (p :: ts) file =
          reportTicksFile fmtF true ts (file ++ [printStatusLine fmtF p.1 p.2 ++ "\n"]) := rfl
      rw [h1, (ih _).1]
      simp
    · have h1 : reportTicksFile fmtF false (p :: ts) file =
          reportTicksFile fmtF false ts file := rfl
      rw [h1, (ih _).2]

/-- `Nat.digitChar` of a digit is a digit character. -/
theorem digitChar_isDigit (n : Nat) (h : n < 10) : (Nat.digitChar n).isDigit = true := by
  interval_cases n <;> decide

/-- The formatted timestamp always has the shape
`YYYY-MM-DD HH:MM:SS ±ZZZZ`. -/
theorem timeFormat_shape (t : GoTime) (hy : t.year < 10000) (hmo : t.month < 100)
    (hd : t.day < 100) (hh : t.hour < 100) (hmi : t.minute < 100) (hs : t.second < 100)
    (hoff : t.offMinutes.natAbs < 6000) :
    tsShape (timeFormat t) = true := by
  have d1 := digitChar_isDigit (t.year / 1000) (by omega)
  have d2 := digitChar_isDigit (t.year / 100 % 10) (by omega)
  have d3 := digitChar_isDigit (t.year / 10 % 10) (by omega)
  have d4 := digitChar_isDigit (t.year % 10) (by omega)
  have d5 := digitChar_isDigit (t.month / 10) (by omega)
  have d6 := digitChar_isDigit (t.month % 10) (by omega)
  have d7 := digitChar_isDigit (t.day / 10) (by omega)
  have d8 := digitChar_isDigit (t.day % 10) (by omega)
  have d9 := digitChar_isDigit (t.hour / 10) (by omega)
  have d10 := digitChar_isDigit (t.hour % 10) (by omega)
  have d11 := digitChar_isDigit (t.minute / 10) (by omega)
  have d12 := digitChar_isDigit (t.minute % 10) (by omega)
  have d13 := digitChar_isDigit (t.second / 10) (by omega)
  have d14 := digitChar_isDigit (t.second % 10) (by omega)
  have d15 := digitChar_isDigit (t.offMinutes.natAbs / 60 / 10) (by omega)
  have d16 := digitChar_isDigit (t.offMinutes.natAbs / 60 % 10) (by omega)
  have d17 := digitChar_isDigit (t.offMinutes.natAbs % 60 / 10) (by omega)
  have d18 := digitChar_isDigit (t.offMinutes.natAbs % 60 % 10) (by omega)
  rcases lt_or_le t.offMinutes 0 with hneg | hpos
  · simp [timeFormat, tsShape, timeFormatChars, pad4, pad2, hneg,
      d1, d2, d3, d4, d5, d6, d7, d8, d9, d10, d11, d12, d13, d14, d15, d16, d17, d18]
  · simp [timeFormat, tsShape, timeFormatChars, pad4, pad2, not_lt.mpr hpos,
      d1, d2, d3, d4, d5, d6, d7, d8, d9, d10, d11, d12, d13, d14, d15, d16, d17, d18]

/-- C8: on a report tick for a node with a stats file attached,
exactly one CSV line is appended, of the form
`timestamp,interval_ops,interval_ops_per_sec` followed by one
`,interval_count,interval_ops_per_sec` pair per op type in the
canonical `AllOpTypes` order; the timestamp is formatted
`YYYY-MM-DD HH:MM:SS ±ZZZZ`; nothing else — in particular no header
row — is ever written over any run of ticks. -/
theorem claim_c8 (fmtFloat : Rat → String) (ts : GoTime) (st : ExecutionStatus)
    (file : List String) (ticks : List (GoTime × ExecutionStatus))
    (hy : ts.year < 10000) (hmo : ts.month < 100) (hd : ts.day < 100)
    (hh : ts.hour < 100) (hmi : ts.minute < 100) (hs : ts.second < 100)
    (hoff : ts.offMinutes.natAbs < 6000) :
    printStatusWrite fmtFloat ts st true file =
      file ++ [timeFormat ts ++ "," ++ toString st.intervalOpsExecuted ++ ","
        ++ fmtFloat st.intervalOpsPerSec
        ++ String.join (AllOpTypes.map fun t =>
            "," ++ toString (st.intervalCounts t) ++ "," ++ fmtFloat (st.intervalTypeOpsSec t))
        ++ "\n"] ∧
    printStatusWrite fmtFloat ts st false file = file ∧
    tsShape (timeFormat ts) = true ∧
    reportTicksFile fmtFloat true ticks [] =
      ticks.map (fun p => printStatusLine fmtFloat p.1 p.2 ++ "\n") ∧
    reportTicksFile fmtFloat false ticks [] = [] := by
  refine ⟨?_, rfl, timeFormat_shape ts hy hmo hd hh hmi hs hoff, ?_, ?_⟩
  · show file ++ [printStatusLine fmtFloat ts st ++ "\n"] = _
    rw [printStatusLine_eq]
  · simpa using (reportTicks_run fmtFloat ticks []).1
  · exact (reportTicks_run fmtFloat ticks []).2

/-- Witness for C8: one tick at a concrete instant with an all-zero
snapshot appends exactly the expected CSV line. -/
theorem claim_c8_witness :
    printStatusWrite (fun _ => "0.00") sampleTime sampleStatus true [] =
      ["2026-10-11 12:30:05 -0700,0,0.00,0,0.00,0,0.00,0,0.00,0,0.00,0,0.00,0,0.00\n"] ∧
    tsShape (timeFormat sampleTime) = true := by
  have h := claim_c8 (fun _ => "0.00") sampleTime sampleStatus [] []
    (by decide) (by decide) (by decide) (by decide) (by decide) (by decide) (by decide)
  exact ⟨h.1.trans (by decide), h.2.2.1⟩

end Flashback
